import Mathlib

/-!
# Verification of the vidio terminal application core

Shallow embedding of the vidio repository (a Rust TUI for fetching YouTube
transcripts and generating reports) together with proofs about the embedded
definitions.  Strings are modelled as `List Char` (one entry per Unicode
scalar value, as in Rust's `char` iteration); byte-level operations of Rust
`String` are modelled through the UTF-8 size of each scalar.  Floating point
progress fractions are modelled as rationals: every numeric literal the
program manipulates in the claims under study is exact in both domains.
-/

set_option autoImplicit false

namespace Vidio

/-- The characters of a Lean string literal, used to transcribe the Rust
string constants of the program. -/
def strL (s : String) : List Char := s.data

/-- Modelled from Rust `char::len_utf8`: the number of bytes of the UTF-8
encoding of a Unicode scalar value. -/
def utf8Len (c : Char) : Nat :=
  if c.toNat < 128 then 1
  else if c.toNat < 2048 then 2
  else if c.toNat < 65536 then 3
  else 4

/-- Byte length of a string (Rust `str::len`). -/
def byteLen (s : List Char) : Nat := (s.map utf8Len).sum

/-- Rust `str::trim`: remove leading and trailing whitespace. -/
def trimL (s : List Char) : List Char :=
  ((s.dropWhile Char.isWhitespace).reverse.dropWhile Char.isWhitespace).reverse

/-- Rust `str::trim_start_matches`: repeatedly strip a leading occurrence of
`p` (fuel-indexed so that the definition is structural). -/
def trimStartGo (fuel : Nat) (p s : List Char) : List Char :=
  match fuel with
  | 0 => s
  | fuel + 1 =>
    if p ≠ [] ∧ p.isPrefixOf s then trimStartGo fuel p (s.drop p.length) else s

def trim_start_matches (p s : List Char) : List Char :=
  trimStartGo (s.length + 1) p s

/-- Digits of a decimal numeral folded to a natural number. -/
def digitsToNat (s : List Char) : Nat :=
  s.foldl (fun n c => 10 * n + (c.toNat - 48)) 0

/-- Modelled from Rust `f64::from_str`, restricted to the plain decimal
fragment `digits [ . digits ]` / `. digits` that covers every payload the
program sends and every input the claims mention; the value is represented
exactly as a rational. -/
def parseUnsigned (s : List Char) : Option ℚ :=
  let ip := s.takeWhile Char.isDigit
  let rest := s.dropWhile Char.isDigit
  match rest with
  | [] => if ip = [] then none else some (mkRat (digitsToNat ip) 1)
  | '.' :: fp =>
    if fp.all Char.isDigit ∧ (ip ≠ [] ∨ fp ≠ []) then
      some (mkRat (digitsToNat ip * 10 ^ fp.length + digitsToNat fp)
        (10 ^ fp.length))
    else none
  | _ => none

def parseDec (s : List Char) : Option ℚ :=
  match s with
  | '-' :: rest => (parseUnsigned rest).map (fun q => -q)
  | '+' :: rest => parseUnsigned rest
  | _ => parseUnsigned s

/-! ## ProgressBar (src/tui/components/progress.rs) -/

structure ProgressBar where
  progress : ℚ
  message : List Char
  logs : List (List Char)
  maxLogs : Nat
  deriving Repr, DecidableEq

namespace ProgressBar

def new : ProgressBar := ⟨0, [], [], 10⟩

/-- `set_progress`: the fraction is clamped to `[0,1]` (Rust `f64::clamp`:
values below the lower bound become the bound, values above the upper bound
become that bound, everything else is kept). -/
def set_progress (b : ProgressBar) (p : ℚ) : ProgressBar :=
  { b with progress := if p < 0 then 0 else if 1 < p then 1 else p }

def set_message (b : ProgressBar) (m : List Char) : ProgressBar :=
  { b with message := m }

/-- `add_log`: push an entry, dropping the oldest once `max_logs` is
exceeded.  The wall-clock timestamp prefixed by the code is not modelled. -/
def add_log (b : ProgressBar) (l : List Char) : ProgressBar :=
  let logs := b.logs ++ [l]
  { b with logs := if b.maxLogs < logs.length then logs.drop 1 else logs }

def reset (b : ProgressBar) : ProgressBar :=
  { b with progress := 0, message := [], logs := [] }

end ProgressBar

/-! ## Screen state (src/tui/app.rs, enum AppState) -/

inductive FileFilter where
  | all
  | transcripts
  | reports
  deriving Repr, DecidableEq

inductive AppStateM where
  | home
  | newTranscript
  | processing (videoId : List Char) (progress : ℚ) (status : List Char)
      (logs : List (List Char))
  | browser (filter : FileFilter) (search : List Char)
  | viewer (filePath : List String)
  | settings
  deriving Repr, DecidableEq

def AppStateM.isProcessing : AppStateM → Bool
  | .processing _ _ _ _ => true
  | _ => false

/-! ## handle_tick (src/tui/app.rs)

`handle_tick` drains the channel and folds each message string into the
progress bar, switching the screen to `Home` on the literal message
`"COMPLETE"` (the file-list refresh it also performs touches only the
browser list and is treated separately through `FileList.update_items`). -/

def handleTickMsg (st : AppStateM × ProgressBar) (m : List Char) :
    AppStateM × ProgressBar :=
  if (strL "PROGRESS:").isPrefixOf m then
    match parseDec (trim_start_matches (strL "PROGRESS:") m) with
    | some p => (st.1, st.2.set_progress p)
    | none => st
  else if (strL "STATUS:").isPrefixOf m then
    (st.1, st.2.set_message (trim_start_matches (strL "STATUS:") m))
  else if (strL "LOG:").isPrefixOf m then
    (st.1, st.2.add_log (trim_start_matches (strL "LOG:") m))
  else if m = strL "COMPLETE" then
    (AppStateM.home, st.2.reset)
  else st

def handle_tick (st : AppStateM × ProgressBar) (msgs : List (List Char)) :
    AppStateM × ProgressBar :=
  msgs.foldl handleTickMsg st

/-! ## The background job pipeline (src/tui/app.rs, start_real_processing)

The spawned task's only observable behaviour is the ordered list of strings
it sends into the channel.  The outcomes of the four external calls (fetch
transcript, save transcript, generate report, save report) are the
parameters; the trace below transcribes the `tx.send(...)` sequence of the
source for every combination of outcomes. -/

def start_real_processing (fetchRes : Except (List Char) Unit)
    (saveTRes : Except (List Char) Unit) (generateReport : Bool)
    (genRes : Except (List Char) Unit) (saveRRes : Except (List Char) Unit) :
    List (List Char) :=
  [strL "STATUS:Starting processing...",
   strL "PROGRESS:0.1",
   strL "LOG:Extracting video ID...",
   strL "STATUS:Downloading transcript...",
   strL "PROGRESS:0.25",
   strL "LOG:Fetching transcript..."] ++
  match fetchRes with
  | .ok _ =>
    [strL "PROGRESS:0.5",
     strL "LOG:Successfully fetched transcript!",
     strL "LOG:Saving transcript to file..."] ++
    match saveTRes with
    | .ok _ =>
      [strL "PROGRESS:0.6",
       strL "LOG:Transcript saved successfully!"] ++
      if generateReport then
        [strL "STATUS:Generating report...",
         strL "PROGRESS:0.7",
         strL "LOG:Generating report..."] ++
        match genRes with
        | .ok _ =>
          [strL "PROGRESS:0.9",
           strL "LOG:Report generated successfully!",
           strL "LOG:Saving report to file..."] ++
          match saveRRes with
          | .ok _ =>
            [strL "PROGRESS:1.0",
             strL "LOG:Report saved successfully!",
             strL "STATUS:Completed",
             strL "COMPLETE"]
          | .error e =>
            [strL "LOG:Error saving report: " ++ e,
             strL "STATUS:Error saving report",
             strL "COMPLETE"]
        | .error e =>
          [strL "LOG:Error generating report: " ++ e,
           strL "STATUS:Error generating report",
           strL "COMPLETE"]
      else
        [strL "PROGRESS:1.0",
         strL "STATUS:Completed",
         strL "COMPLETE"]
    | .error e =>
      [strL "LOG:Error saving transcript: " ++ e,
       strL "STATUS:Error saving transcript",
       strL "COMPLETE"]
  | .error e =>
    [strL "LOG:Error fetching transcript: " ++ e,
     strL "STATUS:Error downloading transcript",
     strL "COMPLETE"]

/-- Whether some pipeline stage that is actually reached fails. -/
def pipelineFailed (fetchRes saveTRes : Except (List Char) Unit)
    (generateReport : Bool) (genRes saveRRes : Except (List Char) Unit) :
    Bool :=
  match fetchRes with
  | .error _ => true
  | .ok _ =>
    match saveTRes with
    | .error _ => true
    | .ok _ =>
      generateReport &&
        (match genRes with
         | .error _ => true
         | .ok _ => match saveRRes with | .error _ => true | .ok _ => false)

/-- A message is terminal when draining it while on a given screen moves the
UI to a different screen. -/
def terminalFrom (s : AppStateM) (bar : ProgressBar) (m : List Char) : Bool :=
  decide ((handleTickMsg (s, bar) m).1 ≠ s)

/-! ## Processing-screen key handling (src/tui/app.rs, handle_processing_key) -/

inductive KeyCodeM where
  | esc
  | enter
  | tab
  | char (c : Char)
  | backspace
  | delete
  | left
  | right
  | homeKey
  | endKey
  | pageUp
  | pageDown
  | up
  | down
  deriving Repr, DecidableEq

/-- `handle_processing_key`: `Esc` abandons the processing screen and goes
back to the form, resetting the progress bar; every other key is ignored. -/
def handle_processing_key (st : AppStateM × ProgressBar) (k : KeyCodeM) :
    AppStateM × ProgressBar :=
  if k = .esc then (AppStateM.newTranscript, st.2.reset) else st

/-- Messages emitted by the pipeline before the fetch stage is attempted. -/
def fetchPrefix : List (List Char) :=
  [strL "STATUS:Starting processing...",
   strL "PROGRESS:0.1",
   strL "LOG:Extracting video ID...",
   strL "STATUS:Downloading transcript...",
   strL "PROGRESS:0.25",
   strL "LOG:Fetching transcript..."]

/-- Messages emitted by the pipeline before stage `n` (0 = fetch, 1 = save
transcript, 2 = generate report, 3 = save report) is attempted. -/
def stagePrefix : Nat → List (List Char)
  | 0 => fetchPrefix
  | 1 =>
    fetchPrefix ++
      [strL "PROGRESS:0.5",
       strL "LOG:Successfully fetched transcript!",
       strL "LOG:Saving transcript to file..."]
  | 2 =>
    stagePrefix 1 ++
      [strL "PROGRESS:0.6",
       strL "LOG:Transcript saved successfully!",
       strL "STATUS:Generating report...",
       strL "PROGRESS:0.7",
       strL "LOG:Generating report..."]
  | _ + 3 =>
    stagePrefix 2 ++
      [strL "PROGRESS:0.9",
       strL "LOG:Report generated successfully!",
       strL "LOG:Saving report to file..."]

/-- The error log line emitted when stage `n` fails with message `e`. -/
def errLogMsg : Nat → List Char → List Char
  | 0, e => strL "LOG:Error fetching transcript: " ++ e
  | 1, e => strL "LOG:Error saving transcript: " ++ e
  | 2, e => strL "LOG:Error generating report: " ++ e
  | _, e => strL "LOG:Error saving report: " ++ e

/-- The error status line emitted when stage `n` fails. -/
def errStatusMsg : Nat → List Char
  | 0 => strL "STATUS:Error downloading transcript"
  | 1 => strL "STATUS:Error saving transcript"
  | 2 => strL "STATUS:Error generating report"
  | _ => strL "STATUS:Error saving report"

/-- The trace of the job whose fetch stage fails with "network error",
everything else being set up to succeed. -/
def c1FailTrace : List (List Char) :=
  start_real_processing (.error (strL "network error")) (.ok ()) true (.ok ())
    (.ok ())

/-! ## FileList (src/tui/components/list.rs)

The scroll-window/list component.  `ListState` is the ratatui selection
state the code stores: a selected index and a scroll offset. -/

inductive FileTypeM where
  | transcript
  | report
  deriving Repr, DecidableEq

structure FileEntryM where
  path : List String
  name : List Char
  fileType : FileTypeM
  size : Nat
  modified : Nat
  deriving Repr, DecidableEq

structure ListStateM where
  selected : Option Nat
  offset : Nat
  deriving Repr, DecidableEq

structure FileList where
  items : List FileEntryM
  state : ListStateM
  selectedItems : List Bool
  viewportSize : Nat
  deriving Repr, DecidableEq

namespace FileList

def new (items : List FileEntryM) : FileList :=
  { items := items
    state :=
      { selected := if items.isEmpty then none else some 0, offset := 0 }
    selectedItems := List.replicate items.length false
    viewportSize := 0 }

/-- `adjust_offset`: clamp the selection into bounds, re-assert `Some` when
the collection is non-empty, clamp the offset, and reposition it so the
selection stays inside the (at-least-1) viewport. -/
def adjust_offset (fl : FileList) : FileList :=
  if fl.items.isEmpty then
    { fl with state := { fl.state with offset := 0 } }
  else
    let viewport := max fl.viewportSize 1
    let maxIndex := fl.items.length - 1
    let selected :=
      match fl.state.selected with
      | some i => min i maxIndex
      | none => 0
    let maxOffset := fl.items.length - viewport
    let offset0 := min fl.state.offset maxOffset
    let offset :=
      if selected < offset0 then selected
      else if offset0 + viewport ≤ selected then selected + 1 - viewport
      else offset0
    { fl with state := { selected := some selected, offset := offset } }

def next (fl : FileList) : FileList :=
  if fl.items.isEmpty then fl
  else
    let i :=
      match fl.state.selected with
      | some i => (i + 1) % fl.items.length
      | none => 0
    adjust_offset { fl with state := { fl.state with selected := some i } }

def previous (fl : FileList) : FileList :=
  if fl.items.isEmpty then fl
  else
    let i :=
      match fl.state.selected with
      | some i => if i = 0 then fl.items.length - 1 else i - 1
      | none => 0
    adjust_offset { fl with state := { fl.state with selected := some i } }

def page_down (fl : FileList) : FileList :=
  if fl.items.isEmpty then fl
  else
    let step := max fl.viewportSize 1
    let current := fl.state.selected.getD 0
    let newIndex := min (current + step) (fl.items.length - 1)
    adjust_offset
      { fl with state := { fl.state with selected := some newIndex } }

def page_up (fl : FileList) : FileList :=
  if fl.items.isEmpty then fl
  else
    let step := max fl.viewportSize 1
    let current := fl.state.selected.getD 0
    let newIndex := current - step
    adjust_offset
      { fl with state := { fl.state with selected := some newIndex } }

def go_home (fl : FileList) : FileList :=
  if fl.items.isEmpty then fl
  else adjust_offset { fl with state := { fl.state with selected := some 0 } }

def go_end (fl : FileList) : FileList :=
  if fl.items.isEmpty then fl
  else
    adjust_offset
      { fl with state :=
          { fl.state with selected := some (fl.items.length - 1) } }

def toggle_selected (fl : FileList) : FileList :=
  match fl.state.selected with
  | some i =>
    if i < fl.selectedItems.length then
      { fl with selectedItems :=
          fl.selectedItems.set i (!(fl.selectedItems.getD i false)) }
    else fl
  | none => fl

def handle_key (fl : FileList) (k : KeyCodeM) : FileList :=
  match k with
  | .up => fl.previous
  | .down => fl.next
  | .pageDown => fl.page_down
  | .pageUp => fl.page_up
  | .homeKey => fl.go_home
  | .endKey => fl.go_end
  | .char ' ' => fl.toggle_selected
  | _ => fl

/-- `update_items`: replace the collection, reset all marks, keep the
previous numeric selection index (clamped into the new bounds). -/
def update_items (fl : FileList) (newItems : List FileEntryM) : FileList :=
  let currentSelected := fl.state.selected
  let fl1 :=
    { fl with items := newItems
              selectedItems := List.replicate newItems.length false }
  let fl2 :=
    if fl1.items.isEmpty then
      { fl1 with state := { fl1.state with selected := none } }
    else
      match currentSelected with
      | some selected =>
        if fl1.items.length ≤ selected then
          { fl1 with state :=
              { fl1.state with selected := some (fl1.items.length - 1) } }
        else fl1
      | none => { fl1 with state := { fl1.state with selected := some 0 } }
  adjust_offset fl2

/-- The state mutation performed by `render` before drawing: the viewport
size becomes the widget height minus the two border rows (at least 1), and
the offset is re-adjusted. -/
def resize_viewport (fl : FileList) (height : Nat) : FileList :=
  let v := height - 2
  let v := if v = 0 then 1 else v
  adjust_offset { fl with viewportSize := v }

end FileList

/-- The scroll-window operations named by the spec's invariant. -/
inductive ScrollOp where
  | next
  | previous
  | pageUp
  | pageDown
  | toHome
  | toEnd
  | replace (newItems : List FileEntryM)
  | resize (height : Nat)
  deriving Repr, DecidableEq

def applyScrollOp (op : ScrollOp) (fl : FileList) : FileList :=
  match op with
  | .next => fl.next
  | .previous => fl.previous
  | .pageUp => fl.page_up
  | .pageDown => fl.page_down
  | .toHome => fl.go_home
  | .toEnd => fl.go_end
  | .replace newItems => fl.update_items newItems
  | .resize height => fl.resize_viewport height

/-- A throw-away file entry used by concrete scroll-window scenarios. -/
def sampleEntry : FileEntryM :=
  ⟨["transcripts", "transcript_a.txt"], strL "transcript_a.txt",
    .transcript, 1, 0⟩

/-- A browser list of 10 items with the last one selected. -/
def tenItemList : FileList :=
  { items := List.replicate 10 sampleEntry
    state := { selected := some 9, offset := 6 }
    selectedItems := List.replicate 10 false
    viewportSize := 4 }

/-! ## Rust str::split on a substring pattern

`split_on sep s` transcribes Rust's `s.split(sep)` for a non-empty string
pattern `sep`: the pieces between consecutive non-overlapping leftmost
matches (fuel-indexed so that the definition is structural and evaluates in
the kernel). -/

def splitOnGo (fuel : Nat) (sep s : List Char) : List (List Char) :=
  match fuel with
  | 0 => [s]
  | fuel + 1 =>
    if sep = [] then [s]
    else if sep.isPrefixOf s then
      [] :: splitOnGo fuel sep (s.drop sep.length)
    else
      match s with
      | [] => [[]]
      | c :: rest =>
        match splitOnGo fuel sep rest with
        | [] => [[c]]
        | h :: t => (c :: h) :: t

def split_on (sep s : List Char) : List (List Char) :=
  splitOnGo (s.length + 1) sep s

/-! ## Identifier sanitisation (src/core/transcript.rs) -/

/-- Rust `char::is_ascii_alphanumeric`. -/
def is_ascii_alphanumeric (c : Char) : Bool :=
  decide ((48 ≤ c.toNat ∧ c.toNat ≤ 57) ∨ (65 ≤ c.toNat ∧ c.toNat ≤ 90) ∨
    (97 ≤ c.toNat ∧ c.toNat ≤ 122))

/-- The character set accepted by `sanitize_video_id`. -/
def valid_id_char (c : Char) : Bool :=
  is_ascii_alphanumeric c || decide (c = '-') || decide (c = '_')

def MAX_VIDEO_ID_LEN : Nat := 128

/-- `sanitize_video_id`: trim, reject empty input, inputs longer than 128
bytes, and inputs with characters outside ASCII alphanumerics, `-`, `_`. -/
def sanitize_video_id (raw : List Char) : Except (List Char) (List Char) :=
  if trimL raw = [] then .error (strL "Video ID cannot be empty")
  else if MAX_VIDEO_ID_LEN < byteLen (trimL raw) then
    .error (strL "Video ID is unexpectedly long")
  else if ¬ ((trimL raw).all valid_id_char = true) then
    .error (strL "Video ID contains unsupported characters")
  else .ok (trimL raw)

/-- `extract_video_id`: pull the identifier out of the various YouTube URL
shapes (`v=` query parameter, `youtu.be/` path, bare identifier) and
sanitise it. -/
def extract_video_id (url : List Char) : Option (List Char) :=
  let raw :=
    match (split_on (strL "v=") url)[1]? with
    | some vparam => (split_on (strL "&") vparam).headD vparam
    | none =>
      match (split_on (strL "youtu.be/") url)[1]? with
      | some youtuBe => (split_on (strL "?") youtuBe).headD youtuBe
      | none => url
  match sanitize_video_id raw with
  | .ok s => some s
  | .error _ => none

/-! ## InputField (src/tui/components/input.rs)

The text field stores a `String` and a `cursor` that the code treats as a
byte index (`String::insert`/`String::remove` take byte indices and panic
when the index is not a character boundary).  The model keeps the value as
a list of scalars and the cursor as a byte index; an operation that would
panic in Rust returns `none`. -/

/-- The character position of byte index `b` in `s`, when `b` is a UTF-8
character boundary of `s` (Rust `str::is_char_boundary` plus position). -/
def charIdxGo : List Char → Nat → Option Nat
  | _, 0 => some 0
  | [], _ + 1 => none
  | c :: rest, b + 1 =>
    if b + 1 < utf8Len c then none
    else (charIdxGo rest (b + 1 - utf8Len c)).map (· + 1)

/-- Rust `String::insert(idx, ch)`: `none` models the panic on a non-boundary
index. -/
def string_insert (s : List Char) (b : Nat) (c : Char) : Option (List Char) :=
  (charIdxGo s b).map (fun k => s.take k ++ c :: s.drop k)

/-- Rust `String::remove(idx)`: `none` models the panic on a non-boundary or
end-of-string index. -/
def string_remove (s : List Char) (b : Nat) : Option (List Char) :=
  match charIdxGo s b with
  | some k => if k < s.length then some (s.take k ++ s.drop (k + 1)) else none
  | none => none

structure InputField where
  value : List Char
  cursor : Nat
  placeholder : List Char
  label : List Char
  focused : Bool
  deriving Repr, DecidableEq

namespace InputField

def new (label placeholder : List Char) : InputField :=
  { value := [], cursor := 0, placeholder := placeholder, label := label
    focused := false }

/-- `handle_key`: character insertion advances the cursor by 1 (the code
adds 1 even for a multi-byte character), Backspace/Delete remove at the
cursor, Left/Right move the cursor by one byte, Home/End jump. -/
def handle_key (f : InputField) (k : KeyCodeM) : Option InputField :=
  match k with
  | .char c =>
    (string_insert f.value f.cursor c).map
      (fun v => { f with value := v, cursor := f.cursor + 1 })
  | .backspace =>
    if 0 < f.cursor then
      (string_remove f.value (f.cursor - 1)).map
        (fun v => { f with value := v, cursor := f.cursor - 1 })
    else some f
  | .delete =>
    if f.cursor < byteLen f.value then
      (string_remove f.value f.cursor).map (fun v => { f with value := v })
    else some f
  | .left =>
    some (if 0 < f.cursor then { f with cursor := f.cursor - 1 } else f)
  | .right =>
    some (if f.cursor < byteLen f.value then { f with cursor := f.cursor + 1 }
      else f)
  | .homeKey => some { f with cursor := 0 }
  | .endKey => some { f with cursor := byteLen f.value }
  | _ => some f

def is_valid (f : InputField) : Bool := !(trimL f.value).isEmpty

def clear (f : InputField) : InputField :=
  { f with value := [], cursor := 0 }

end InputField

/-! ## The NewTranscript screen (src/tui/app.rs) -/

structure TranscriptRequest where
  videoUrl : List Char
  languages : List (List Char)
  preserveFormatting : Bool
  generateReport : Bool
  deriving Repr, DecidableEq

/-- The slice of `App` that the NewTranscript flow touches.  `txPresent`
records whether `processing_tx` is `Some` (it always is once the TUI loop
has started). -/
structure AppM where
  state : AppStateM
  urlInput : InputField
  languagesInput : InputField
  preserveFormatting : Bool
  generateReport : Bool
  inputFocus : Nat
  bar : ProgressBar
  txPresent : Bool
  deriving Repr, DecidableEq

def cycle_input_focus (a : AppM) : AppM :=
  let a1 :=
    { a with urlInput := { a.urlInput with focused := false }
             languagesInput := { a.languagesInput with focused := false } }
  let focus := (a1.inputFocus + 1) % 4
  match focus with
  | 0 =>
    { a1 with inputFocus := focus
              urlInput := { a1.urlInput with focused := true } }
  | 1 =>
    { a1 with inputFocus := focus
              languagesInput := { a1.languagesInput with focused := true } }
  | _ => { a1 with inputFocus := focus }

/-- `start_processing`: reject an empty identifier field, build the request,
and enter `Processing` (spawning the job when the channel is present)
exactly when `extract_video_id` succeeds.  The second component is the
spawned job request, `none` when nothing was spawned. -/
def start_processing (a : AppM) :
    AppM × Option (List Char × TranscriptRequest) :=
  if ¬ a.urlInput.is_valid = true then (a, none)
  else
    let request : TranscriptRequest :=
      { videoUrl := a.urlInput.value
        languages := (split_on (strL ",") a.languagesInput.value).map trimL
        preserveFormatting := a.preserveFormatting
        generateReport := a.generateReport }
    match extract_video_id request.videoUrl with
    | some videoId =>
      ({ a with
          state := AppStateM.processing videoId 0 (strL "Starting...") []
          bar := (a.bar.reset).set_message (strL "Starting...") },
        if a.txPresent then some (videoId, request) else none)
    | none => (a, none)

/-- `handle_new_transcript_key`; `none` models a panic inside the text-field
editing path. -/
def handle_new_transcript_key (a : AppM) (k : KeyCodeM) :
    Option (AppM × Option (List Char × TranscriptRequest)) :=
  if k = .esc then some ({ a with state := AppStateM.home }, none)
  else if k = .tab then some (cycle_input_focus a, none)
  else if k = .enter then
    if a.inputFocus < 2 then some (cycle_input_focus a, none)
    else some (start_processing a)
  else if k = .char ' ' ∧ a.inputFocus = 2 then
    some ({ a with preserveFormatting := !a.preserveFormatting }, none)
  else if k = .char ' ' ∧ a.inputFocus = 3 then
    some ({ a with generateReport := !a.generateReport }, none)
  else if a.inputFocus = 0 then
    (a.urlInput.handle_key k).map (fun f => ({ a with urlInput := f }, none))
  else if a.inputFocus = 1 then
    (a.languagesInput.handle_key k).map
      (fun f => ({ a with languagesInput := f }, none))
  else some (a, none)

/-- A NewTranscript screen whose identifier field holds `"!!!"` (non-empty,
hence passing `is_valid`) with focus on the last control. -/
def exclApp : AppM :=
  { state := AppStateM.newTranscript
    urlInput :=
      { value := strL "!!!", cursor := 3, placeholder := [], label := []
        focused := true }
    languagesInput :=
      { value := strL "en,es", cursor := 0, placeholder := [], label := []
        focused := false }
    preserveFormatting := true
    generateReport := true
    inputFocus := 3
    bar := ProgressBar.new
    txPresent := true }

/-- The same screen with the path-traversal identifier from the spec's
scenario. -/
def traversalApp : AppM :=
  { exclApp with
      urlInput :=
        { value := strL "../etc/passwd", cursor := 0, placeholder := []
          label := [], focused := true } }

/-- The same screen with a valid identifier. -/
def validApp : AppM :=
  { exclApp with
      urlInput :=
        { value := strL "abc_DEF-123", cursor := 0, placeholder := []
          label := [], focused := true } }

/-- A fresh URL field, as created by `App::new`. -/
def urlField : InputField :=
  InputField.new (strL "Video URL") (strL "https://youtu.be/...")

/-! ## Storage delete sandbox (src/core/storage.rs)

Paths are lists of components.  Canonicalisation (the OS resolution of
`..`, symlinks and the current directory performed by `Path::canonicalize`)
is a parameter `canon`, returning the canonical path of an existing object
or `none` when resolution fails; `tbase` and `rbase` are the canonicalised
managed directories (`transcripts/`, `reports/`), `none` when their
canonicalisation fails.  The filesystem is the list of canonical paths of
existing files; `remove_file` is modelled as erasing the object the
argument path canonically resolves to.  `ensure_directories` only creates
the managed directories and tightens their permissions; it does not affect
the sandbox decision and is not modelled. -/

/-- Rust `Path::starts_with`: component-wise prefix. -/
def path_starts_with (base p : List String) : Bool := base.isPrefixOf p

/-- Whether a canonical path lies under one of the managed directories. -/
def underManaged (tbase rbase : Option (List String)) (c : List String) :
    Bool :=
  (match tbase with
   | some b => path_starts_with b c
   | none => false) ||
  (match rbase with
   | some b => path_starts_with b c
   | none => false)

def ensure_managed_path (canon : List String → Option (List String))
    (tbase rbase : Option (List String)) (p : List String) :
    Except (List Char) Unit :=
  match canon p with
  | none => .error (strL "Target file does not exist or cannot be resolved")
  | some c =>
    if underManaged tbase rbase c then .ok ()
    else
      .error (strL
        "Refusing to operate on files outside managed transcript/report directories")

/-- `delete_file`: check the sandbox, then remove the file; the second
component is the filesystem after the call. -/
def delete_file (canon : List String → Option (List String))
    (tbase rbase : Option (List String)) (fs : List (List String))
    (p : List String) : Except (List Char) Unit × List (List String) :=
  match ensure_managed_path canon tbase rbase p with
  | .error e => (.error e, fs)
  | .ok _ =>
    match canon p with
    | some c => (.ok (), fs.filter (fun q => decide (q ≠ c)))
    | none => (.ok (), fs)

/-- A one-file world outside the managed directories, with the identity
canonicalisation on that file. -/
def outsideCanon : List String → Option (List String) :=
  fun p => if p = ["etc", "passwd"] then some ["etc", "passwd"] else none

/-! ## Table layout (src/tui/components/viewer.rs, render_table)

`display_width` comes from the external unicode-width crate; it is modelled
for narrow characters, every scalar counting one display column.  `wrap`
comes from the external textwrap crate; following §4.3 of the spec it is
modelled as greedy word-wrap at the given width with over-long words broken
to the width.  Everything else transcribes `render_table`; the styling of
the spans is dropped: a physical line is the concatenation of its spans'
characters. -/

/-- Modelled from the spec: display width (external unicode-width crate),
restricted to narrow characters. -/
def display_width (s : List Char) : Nat := s.length

/-- Break a word into chunks of at most `w` characters (textwrap's
`break_words` behaviour for words longer than the line width),
fuel-indexed. -/
def chunksGo (fuel w : Nat) (s : List Char) : List (List Char) :=
  match fuel with
  | 0 => [s]
  | fuel + 1 =>
    if s = [] then []
    else if s.length ≤ w then [s]
    else s.take w :: chunksGo fuel w (s.drop w)

def chunks (w : Nat) (s : List Char) : List (List Char) :=
  chunksGo (s.length + 1) w s

/-- The whitespace-separated words of a cell (single spaces in the model). -/
def wordsOf (s : List Char) : List (List Char) :=
  (s.splitOn ' ').filter (fun w => !w.isEmpty)

/-- Greedy line filling: keep appending pieces (space-separated) while they
fit, else start a new line. -/
def fillGo (w : Nat) (cur : List Char) : List (List Char) → List (List Char)
  | [] => [cur]
  | piece :: rest =>
    if cur.length + 1 + piece.length ≤ w then
      fillGo w (cur ++ ' ' :: piece) rest
    else cur :: fillGo w piece rest

/-- Modelled from the spec: greedy word-wrap at `w` columns (the external
textwrap crate), breaking words longer than the line; a width of 0 behaves
as width 1. -/
def wrapModel (w : Nat) (s : List Char) : List (List Char) :=
  match (wordsOf s).flatMap (fun word => chunks (max w 1) word) with
  | [] => []
  | p :: ps => fillGo (max w 1) p ps

/-- Column count: `max(header length, longest row)`. -/
def tableCols (headers : List (List Char)) (rows : List (List (List Char))) :
    Nat :=
  max headers.length ((rows.map List.length).foldr max 0)

/-- Headers padded with empty cells to the column count. -/
def normHeaders (headers : List (List Char)) (cols : Nat) :
    List (List Char) :=
  (List.range cols).map (fun i => headers.getD i [])

/-- Rows padded with empty cells to the column count. -/
def normRows (rows : List (List (List Char))) (cols : Nat) :
    List (List (List Char)) :=
  rows.map (fun r => (List.range cols).map (fun i => r.getD i []))

/-- Natural width of each column: the maximum display width of its header
and all its cells. -/
def naturalWidths (headers : List (List Char))
    (rows : List (List (List Char))) (cols : Nat) : List Nat :=
  (List.range cols).map (fun i =>
    max (display_width ((normHeaders headers cols).getD i []))
      (((normRows rows cols).map
        (fun r => display_width (r.getD i []))).foldr max 0))

/-- One step of the shrink loop: skip once the overflow is gone, shrink
column `i` by at most its reducible amount (down to the floor of 3). -/
def shrinkStep (st : List Nat × Nat) (i : Nat) : List Nat × Nat :=
  if st.2 = 0 then st
  else if 3 < st.1.getD i 0 then
    (st.1.set i (st.1.getD i 0 - min (st.1.getD i 0 - 3) st.2),
      st.2 - min (st.1.getD i 0 - 3) st.2)
  else st

/-- Stable insertion of index `i` into a list of indices sorted by
descending width: `i` goes after every index of width at least its own. -/
def insertByWidthDesc (ws : List Nat) (i : Nat) : List Nat → List Nat
  | [] => [i]
  | j :: rest =>
    if ws.getD i 0 ≤ ws.getD j 0 then j :: insertByWidthDesc ws i rest
    else i :: j :: rest

/-- Rust's stable `sort_by_key(Reverse(width))` on the index list. -/
def sortByWidthDesc (ws : List Nat) (idxs : List Nat) : List Nat :=
  idxs.foldl (fun acc i => insertByWidthDesc ws i acc) []

/-- Natural total width of the table: content + 2 padding columns per
column + the `cols+1` vertical border characters. -/
def tableNaturalTotal (headers : List (List Char))
    (rows : List (List (List Char))) : Nat :=
  (naturalWidths headers rows (tableCols headers rows)).sum +
    2 * tableCols headers rows + (tableCols headers rows + 1)

/-- The column widths after the shrink loop together with the remaining
overflow (0 when the table now fits). -/
def tableFinalState (headers : List (List Char))
    (rows : List (List (List Char))) (maxWidth : Nat) : List Nat × Nat :=
  if maxWidth < tableNaturalTotal headers rows then
    (sortByWidthDesc (naturalWidths headers rows (tableCols headers rows))
        (List.range (tableCols headers rows))).foldl shrinkStep
      (naturalWidths headers rows (tableCols headers rows),
        tableNaturalTotal headers rows - maxWidth)
  else (naturalWidths headers rows (tableCols headers rows), 0)

/-- Wrap one logical row into physical sub-rows: wrap each cell to its
(at-least-1) column width, then read the segments line by line, missing
segments becoming empty cells. -/
def wrap_row (colWidths : List Nat) (cells : List (List Char)) :
    List (List (List Char)) :=
  let wrappedCols := (List.range colWidths.length).map (fun i =>
    wrapModel (max (colWidths.getD i 0) 1) (cells.getD i []))
  let maxLines :=
    (wrappedCols.map (fun segs => max segs.length 1)).foldr max 0
  (List.range maxLines).map
    (fun li => wrappedCols.map (fun wc => wc.getD li []))

/-- The horizontal strip of a border between the outer corners: `w+2` line
characters per column, a junction between consecutive columns. -/
def borderSegs (mid horiz : Char) : List Nat → List Char
  | [] => []
  | [w] => List.replicate (w + 2) horiz
  | w :: w' :: rest =>
    List.replicate (w + 2) horiz ++ mid :: borderSegs mid horiz (w' :: rest)

def draw_border (left mid right horiz : Char) (colWidths : List Nat) :
    List Char :=
  left :: borderSegs mid horiz colWidths ++ [right]

def center_text (s : List Char) (width : Nat) : List Char :=
  if width ≤ display_width s then s
  else
    let total := width - display_width s
    let leftPad := total / 2
    let rightPad := total - leftPad
    List.replicate leftPad ' ' ++ s ++ List.replicate rightPad ' '

def pad_right (s : List Char) (width : Nat) : List Char :=
  if width ≤ display_width s then s
  else s ++ List.replicate (width - display_width s) ' '

/-- One physical table row: a left border, then per cell a padded
(centered for the header) content between spaces followed by a vertical
border.  The code indexes `col_widths[i]` while iterating the cells; inside
`render_table` both lists have exactly `cols` entries, which the zip
mirrors. -/
def render_row_styled (cells : List (List Char)) (colWidths : List Nat)
    (header : Bool) : List Char :=
  '│' :: (cells.zip colWidths).flatMap (fun cw =>
    ' ' :: (if header then center_text cw.1 cw.2 else pad_right cw.1 cw.2) ++
      [' ', '│'])

/-- `render_table`: compute the final column widths, then emit the top
border, the header sub-rows, a separator, each body row's sub-rows followed
by a separator, the final separator being replaced by the bottom border. -/
def render_table (headers : List (List Char))
    (rows : List (List (List Char))) (maxWidth : Nat) : List (List Char) :=
  let cols := tableCols headers rows
  if cols = 0 then []
  else
    let colWidths := (tableFinalState headers rows maxWidth).1
    let top := draw_border '┌' '┬' '┐' '─' colWidths
    let sep := draw_border '├' '┼' '┤' '─' colWidths
    let bottom := draw_border '└' '┴' '┘' '─' colWidths
    let headerLines := (wrap_row colWidths (normHeaders headers cols)).map
      (fun phys => render_row_styled phys colWidths true)
    let bodyLines := (normRows rows cols).flatMap (fun row =>
      (wrap_row colWidths row).map
        (fun phys => render_row_styled phys colWidths false) ++ [sep])
    let out := top :: headerLines ++ sep :: bodyLines
    out.dropLast ++ [bottom]

/-- A concrete overflowing table: two columns of natural widths 6 and 1 at
target width 12. -/
def sampleHeaders : List (List Char) := [strL "aaaaaa", strL "b"]

def sampleRows : List (List (List Char)) := [[strL "cc", strL "d"]]

/-! ## Theorems -/

/-- C2: a delete whose target canonically resolves outside both managed
directories returns the sandbox error and leaves the filesystem unchanged;
and for every caller-supplied path, every file outside the managed
directories survives the delete call. -/
theorem delete_file_sandbox (canon : List String → Option (List String))
    (tbase rbase : Option (List String)) (fs : List (List String))
    (p c : List String) (hc : canon p = some c)
    (hout : underManaged tbase rbase c = false) :
    delete_file canon tbase rbase fs p =
        (.error (strL
          "Refusing to operate on files outside managed transcript/report directories"),
          fs) ∧
      ∀ p' q : List String, q ∈ fs → underManaged tbase rbase q = false →
        q ∈ (delete_file canon tbase rbase fs p').2 := by
  constructor
  · unfold delete_file ensure_managed_path
    rw [hc]
    simp [hout]
  · intro p' q hq hqout
    unfold delete_file ensure_managed_path
    cases hc' : canon p' with
    | none => simpa using hq
    | some c' =>
      by_cases hm : underManaged tbase rbase c' = true
      · simp only [hm, if_true, List.mem_filter, decide_eq_true_eq]
        refine ⟨hq, fun hqc => ?_⟩
        rw [hqc] at hqout
        rw [hqout] at hm
        exact Bool.noConfusion hm
      · simp only [Bool.not_eq_true] at hm
        simp only [hm]
        simpa using hq

/-- C2 (witness): deleting `/etc/passwd` (a path resolving outside the
managed directories) is refused and the world is unchanged. -/
theorem delete_file_sandbox_witness :
    outsideCanon ["etc", "passwd"] = some ["etc", "passwd"] ∧
      underManaged (some ["transcripts"]) (some ["reports"])
          ["etc", "passwd"] = false ∧
      delete_file outsideCanon (some ["transcripts"]) (some ["reports"])
          [["etc", "passwd"]] ["etc", "passwd"] =
        (.error (strL
          "Refusing to operate on files outside managed transcript/report directories"),
          [["etc", "passwd"]]) :=
  ⟨rfl, by decide,
    (delete_file_sandbox outsideCanon (some ["transcripts"])
        (some ["reports"]) [["etc", "passwd"]] ["etc", "passwd"]
        ["etc", "passwd"] rfl (by decide)).1⟩

theorem getD_set_self (l : List Nat) (i v : Nat) (h : i < l.length) :
    (l.set i v).getD i 0 = v := by
  induction l generalizing i with
  | nil => simp at h
  | cons a t ih =>
    cases i with
    | zero => rfl
    | succ n =>
      simp only [List.set_cons_succ, List.getD_cons_succ]
      exact ih n (by simpa using h)

theorem getD_set_ne (l : List Nat) (i k v : Nat) (h : i ≠ k) :
    (l.set i v).getD k 0 = l.getD k 0 := by
  induction l generalizing i k with
  | nil => simp
  | cons a t ih =>
    cases i with
    | zero =>
      cases k with
      | zero => exact absurd rfl h
      | succ m => rfl
    | succ n =>
      cases k with
      | zero => rfl
      | succ m =>
        simp only [List.set_cons_succ, List.getD_cons_succ]
        exact ih n m (by omega)

theorem sum_set_add (l : List Nat) (i v : Nat) (h : i < l.length) :
    (l.set i v).sum + l.getD i 0 = l.sum + v := by
  induction l generalizing i with
  | nil => simp at h
  | cons a t ih =>
    cases i with
    | zero => simp [List.getD_cons_zero]; omega
    | succ n =>
      simp only [List.set_cons_succ, List.getD_cons_succ, List.sum_cons]
      have := ih n (by simpa using h)
      omega

theorem getD_pos_lt_length (l : List Nat) (i : Nat) (h : 0 < l.getD i 0) :
    i < l.length := by
  by_contra hc
  rw [List.getD_eq_default] at h
  · omega
  · omega

theorem shrinkStep_spec (st : List Nat × Nat) (i : Nat) :
    (shrinkStep st i).1.length = st.1.length ∧
      (shrinkStep st i).2 ≤ st.2 ∧
      (shrinkStep st i).1.sum + st.2 = st.1.sum + (shrinkStep st i).2 ∧
      ∀ k, min (st.1.getD k 0) 3 ≤ (shrinkStep st i).1.getD k 0 ∧
        (shrinkStep st i).1.getD k 0 ≤ st.1.getD k 0 := by
  unfold shrinkStep
  split_ifs with h0 h3
  · exact ⟨rfl, le_refl _, rfl, fun k => ⟨Nat.min_le_left _ _, le_refl _⟩⟩
  · have hlt : i < st.1.length := getD_pos_lt_length st.1 i (by omega)
    have hsum := sum_set_add st.1 i
      (st.1.getD i 0 - min (st.1.getD i 0 - 3) st.2) hlt
    refine ⟨?_, ?_, ?_, fun k => ?_⟩
    · show (st.1.set i _).length = st.1.length
      exact List.length_set st.1 _ _
    · show st.2 - min (st.1.getD i 0 - 3) st.2 ≤ st.2
      omega
    · show (st.1.set i (st.1.getD i 0 - min (st.1.getD i 0 - 3) st.2)).sum +
          st.2 =
        st.1.sum + (st.2 - min (st.1.getD i 0 - 3) st.2)
      omega
    · by_cases hk : i = k
      · subst hk
        show min (st.1.getD i 0) 3 ≤
            (st.1.set i (st.1.getD i 0 -
              min (st.1.getD i 0 - 3) st.2)).getD i 0 ∧
          (st.1.set i (st.1.getD i 0 -
            min (st.1.getD i 0 - 3) st.2)).getD i 0 ≤ st.1.getD i 0
        rw [getD_set_self st.1 i _ hlt]
        omega
      · show min (st.1.getD k 0) 3 ≤
            (st.1.set i (st.1.getD i 0 -
              min (st.1.getD i 0 - 3) st.2)).getD k 0 ∧
          (st.1.set i (st.1.getD i 0 -
            min (st.1.getD i 0 - 3) st.2)).getD k 0 ≤ st.1.getD k 0
        rw [getD_set_ne st.1 i k _ hk]
        omega
  · exact ⟨rfl, le_refl _, rfl, fun k => ⟨Nat.min_le_left _ _, le_refl _⟩⟩

theorem shrinkFold_spec (L : List Nat) (st : List Nat × Nat) :
    (L.foldl shrinkStep st).1.length = st.1.length ∧
      (L.foldl shrinkStep st).2 ≤ st.2 ∧
      (L.foldl shrinkStep st).1.sum + st.2 =
        st.1.sum + (L.foldl shrinkStep st).2 ∧
      ∀ k, min (st.1.getD k 0) 3 ≤ (L.foldl shrinkStep st).1.getD k 0 ∧
        (L.foldl shrinkStep st).1.getD k 0 ≤ st.1.getD k 0 := by
  induction L generalizing st with
  | nil =>
    exact ⟨rfl, le_refl _, rfl, fun k => ⟨Nat.min_le_left _ _, le_refl _⟩⟩
  | cons i L ih =>
    have h1 := shrinkStep_spec st i
    have h2 := ih (shrinkStep st i)
    rw [List.foldl_cons]
    refine ⟨by omega, by omega, by omega, fun k => ?_⟩
    have hk1 := h1.2.2.2 k
    have hk2 := h2.2.2.2 k
    constructor <;> omega

theorem getD_map_range {α : Type} (n : Nat) (f : Nat → α) (i : Nat) (d : α)
    (h : i < n) : ((List.range n).map f).getD i d = f i := by
  rw [List.getD_eq_getElem?_getD, List.getElem?_map, List.getElem?_range h]
  rfl

theorem getD_map {α β : Type} (l : List α) (f : α → β) (i : Nat) (d : α)
    (d' : β) (h : i < l.length) : (l.map f).getD i d' = f (l.getD i d) := by
  rw [List.getD_eq_getElem?_getD, List.getElem?_map,
    List.getElem?_eq_getElem h, List.getD_eq_getElem l d h]
  rfl

theorem getD_mem_or {α : Type} (l : List α) (i : Nat) (d : α) :
    l.getD i d ∈ l ∨ l.getD i d = d := by
  by_cases h : i < l.length
  · left
    rw [List.getD_eq_getElem l d h]
    exact l.getElem_mem h
  · right
    exact List.getD_eq_default l d (by omega)

theorem le_foldr_max (l : List Nat) (x : Nat) (h : x ∈ l) :
    x ≤ l.foldr max 0 := by
  induction l with
  | nil => simp at h
  | cons a t ih =>
    rcases List.mem_cons.mp h with h | h
    · subst h
      exact Nat.le_max_left _ _
    · exact (ih h).trans (Nat.le_max_right _ _)

theorem chunksGo_bound (w : Nat) (hw : 1 ≤ w) : ∀ (fuel : Nat)
    (s : List Char), s.length ≤ fuel →
    ∀ l ∈ chunksGo fuel w s, l.length ≤ w := by
  intro fuel
  induction fuel with
  | zero =>
    intro s hs l hl
    have : s = [] := List.eq_nil_of_length_eq_zero (by omega)
    subst this
    simp only [chunksGo, List.mem_singleton] at hl
    subst hl
    simp
  | succ fuel ih =>
    intro s hs l hl
    simp only [chunksGo] at hl
    split_ifs at hl with h1 h2
    · simp at hl
    · simp only [List.mem_singleton] at hl
      subst hl
      exact h2
    · rcases List.mem_cons.mp hl with h | h
      · subst h
        simp
      · exact ih (s.drop w) (by simp; omega) l h

theorem fillGo_bound (w : Nat) : ∀ (ps : List (List Char)) (cur : List Char),
    cur.length ≤ w → (∀ p ∈ ps, p.length ≤ w) →
    ∀ l ∈ fillGo w cur ps, l.length ≤ w := by
  intro ps
  induction ps with
  | nil =>
    intro cur hc _ l hl
    simp only [fillGo, List.mem_singleton] at hl
    subst hl
    exact hc
  | cons p rest ih =>
    intro cur hc hp l hl
    simp only [fillGo] at hl
    split_ifs at hl with hfit
    · exact ih (cur ++ ' ' :: p) (by simp; omega)
        (fun q hq => hp q (List.mem_cons_of_mem _ hq)) l hl
    · rcases List.mem_cons.mp hl with h | h
      · subst h
        exact hc
      · exact ih p (hp p (List.mem_cons_self _ _))
          (fun q hq => hp q (List.mem_cons_of_mem _ hq)) l h

theorem wrapModel_bound (w : Nat) (s : List Char) :
    ∀ l ∈ wrapModel w s, l.length ≤ max w 1 := by
  intro l hl
  have hall : ∀ q ∈ (wordsOf s).flatMap (fun word => chunks (max w 1) word),
      q.length ≤ max w 1 := by
    intro q hq
    rcases List.mem_flatMap.mp hq with ⟨word, _, hq'⟩
    exact chunksGo_bound (max w 1) (Nat.le_max_right _ _)
      (word.length + 1) word (by omega) q hq'
  unfold wrapModel at hl
  rcases hpieces : (wordsOf s).flatMap (fun word => chunks (max w 1) word)
    with _ | ⟨p, ps⟩
  · rw [hpieces] at hl
    simp at hl
  · rw [hpieces] at hl hall
    exact fillGo_bound (max w 1) ps p (hall p (List.mem_cons_self _ _))
      (fun q hq => hall q (List.mem_cons_of_mem _ hq)) l hl

theorem wrapModel_nil (w : Nat) : wrapModel w [] = [] := rfl

theorem pad_right_length (s : List Char) (w : Nat) (h : s.length ≤ w) :
    (pad_right s w).length = w := by
  unfold pad_right display_width
  split_ifs with h1
  · omega
  · simp only [List.length_append, List.length_replicate]
    omega

theorem center_text_length (s : List Char) (w : Nat) (h : s.length ≤ w) :
    (center_text s w).length = w := by
  unfold center_text display_width
  split_ifs with h1
  · omega
  · simp only [List.length_append, List.length_replicate]
    omega

theorem borderSegs_length (mid horiz : Char) : ∀ ws : List Nat, ws ≠ [] →
    (borderSegs mid horiz ws).length + 1 = ws.sum + 3 * ws.length := by
  intro ws
  induction ws with
  | nil => intro h; exact absurd rfl h
  | cons w rest ih =>
    intro _
    cases rest with
    | nil =>
      simp [borderSegs]
    | cons w' rest' =>
      have := ih (by simp)
      simp only [borderSegs, List.length_append, List.length_replicate,
        List.length_cons] at this ⊢
      simp only [List.sum_cons, List.length_cons] at this ⊢
      omega

theorem draw_border_length (l m r h : Char) (ws : List Nat) (hne : ws ≠ []) :
    (draw_border l m r h ws).length = ws.sum + 2 * ws.length +
      (ws.length + 1) := by
  unfold draw_border
  have := borderSegs_length m h ws hne
  simp only [List.length_cons, List.length_append, List.length_nil]
  omega

theorem render_row_length (hdr : Bool) : ∀ (cells : List (List Char))
    (ws : List Nat), cells.length = ws.length →
    (∀ i, (cells.getD i []).length ≤ ws.getD i 0) →
    (render_row_styled cells ws hdr).length =
      ws.sum + 2 * ws.length + (ws.length + 1) := by
  intro cells
  induction cells with
  | nil =>
    intro ws hlen _
    have : ws = [] := List.eq_nil_of_length_eq_zero (by simpa using hlen.symm)
    subst this
    rfl
  | cons c ct ih =>
    intro ws hlen hc
    cases ws with
    | nil => simp at hlen
    | cons w wt =>
      have hct := ih wt (by simpa using hlen)
        (fun i => by simpa using hc (i + 1))
      have hcw : c.length ≤ w := by simpa using hc 0
      have hcontent :
          (if hdr then center_text c w else pad_right c w).length = w := by
        cases hdr
        · simpa using pad_right_length c w hcw
        · simpa using center_text_length c w hcw
      have hcontent2 : (if hdr then center_text (c, w).1 (c, w).2
          else pad_right (c, w).1 (c, w).2).length = w := hcontent
      unfold render_row_styled at hct ⊢
      simp only [List.zip_cons_cons, List.flatMap_cons, List.length_cons,
        List.length_append, List.sum_cons, List.length_nil,
        hcontent2] at hct ⊢
      omega

theorem wrap_row_spec (ws : List Nat) (cells : List (List Char))
    (hzero : ∀ i, ws.getD i 0 = 0 → cells.getD i [] = []) :
    ∀ phys ∈ wrap_row ws cells, phys.length = ws.length ∧
      ∀ i, (phys.getD i []).length ≤ ws.getD i 0 := by
  intro phys hphys
  unfold wrap_row at hphys
  rcases List.mem_map.mp hphys with ⟨li, _, hphys'⟩
  subst hphys'
  constructor
  · simp
  · intro i
    by_cases hi : i < ws.length
    · rw [getD_map ((List.range ws.length).map (fun j =>
        wrapModel (max (ws.getD j 0) 1) (cells.getD j []))) _ i [] []
        (by simpa using hi)]
      rw [getD_map_range ws.length _ i [] hi]
      by_cases hw : ws.getD i 0 = 0
      · rw [hw, hzero i hw, wrapModel_nil]
        simp
      · rcases getD_mem_or (wrapModel (max (ws.getD i 0) 1)
          (cells.getD i [])) li [] with hmem | hdef
        · have := wrapModel_bound (max (ws.getD i 0) 1) (cells.getD i []) _
            hmem
          omega
        · rw [hdef]
          simp
    · rw [List.getD_eq_default, List.getD_eq_default]
      · simp
      · omega
      · simp
        omega

theorem natural_ge_header (headers : List (List Char))
    (rows : List (List (List Char))) (cols i : Nat) :
    ((normHeaders headers cols).getD i []).length ≤
      (naturalWidths headers rows cols).getD i 0 := by
  by_cases hi : i < cols
  · unfold naturalWidths
    rw [getD_map_range cols _ i 0 hi]
    exact Nat.le_max_left _ _
  · rw [List.getD_eq_default]
    · simp
    · unfold normHeaders
      simp
      omega

theorem natural_ge_cell (headers : List (List Char))
    (rows : List (List (List Char))) (cols i : Nat)
    (row : List (List Char)) (hrow : row ∈ normRows rows cols) :
    (row.getD i []).length ≤ (naturalWidths headers rows cols).getD i 0 := by
  by_cases hi : i < cols
  · unfold naturalWidths
    rw [getD_map_range cols _ i 0 hi]
    refine le_trans ?_ (Nat.le_max_right _ _)
    exact le_foldr_max _ _ (List.mem_map_of_mem _ hrow)
  · rcases List.mem_map.mp hrow with ⟨r, _, hr⟩
    rw [List.getD_eq_default]
    · simp
    · rw [← hr]
      simp
      omega

/-- C9: when the natural total width exceeds the target and the shrink loop
absorbs the whole overflow, every physical line the table renderer produces
has display width at most the target (in fact exactly the target); moreover
the final column widths never drop below `min(natural, 3)` nor rise above
the natural width, so no column sits below its floor while another column
is above its natural width. -/
theorem table_shrink_fits (headers : List (List Char))
    (rows : List (List (List Char))) (maxWidth : Nat)
    (hover : maxWidth < tableNaturalTotal headers rows)
    (hsucc : (tableFinalState headers rows maxWidth).2 = 0) :
    (∀ line ∈ render_table headers rows maxWidth,
        display_width line ≤ maxWidth) ∧
      (∀ i,
        min ((naturalWidths headers rows
            (tableCols headers rows)).getD i 0) 3 ≤
          (tableFinalState headers rows maxWidth).1.getD i 0 ∧
        (tableFinalState headers rows maxWidth).1.getD i 0 ≤
          (naturalWidths headers rows (tableCols headers rows)).getD i 0) ∧
      ¬ ∃ i j,
        (tableFinalState headers rows maxWidth).1.getD i 0 <
            min ((naturalWidths headers rows
              (tableCols headers rows)).getD i 0) 3 ∧
          (naturalWidths headers rows (tableCols headers rows)).getD j 0 <
            (tableFinalState headers rows maxWidth).1.getD j 0 := by
  have hfs : tableFinalState headers rows maxWidth =
      (sortByWidthDesc (naturalWidths headers rows (tableCols headers rows))
          (List.range (tableCols headers rows))).foldl shrinkStep
        (naturalWidths headers rows (tableCols headers rows),
          tableNaturalTotal headers rows - maxWidth) := by
    unfold tableFinalState
    rw [if_pos hover]
  have hspec := shrinkFold_spec
    (sortByWidthDesc (naturalWidths headers rows (tableCols headers rows))
      (List.range (tableCols headers rows)))
    (naturalWidths headers rows (tableCols headers rows),
      tableNaturalTotal headers rows - maxWidth)
  rw [← hfs] at hspec
  have hlen : (tableFinalState headers rows maxWidth).1.length =
      (naturalWidths headers rows (tableCols headers rows)).length :=
    hspec.1
  have hsum : (tableFinalState headers rows maxWidth).1.sum +
      (tableNaturalTotal headers rows - maxWidth) =
      (naturalWidths headers rows (tableCols headers rows)).sum +
        (tableFinalState headers rows maxWidth).2 := hspec.2.2.1
  have hbounds : ∀ k,
      min ((naturalWidths headers rows
          (tableCols headers rows)).getD k 0) 3 ≤
        (tableFinalState headers rows maxWidth).1.getD k 0 ∧
      (tableFinalState headers rows maxWidth).1.getD k 0 ≤
        (naturalWidths headers rows (tableCols headers rows)).getD k 0 :=
    hspec.2.2.2
  refine ⟨?_, hbounds, ?_⟩
  case refine_2 =>
    rintro ⟨i, j, hij1, hij2⟩
    have h1 := (hbounds i).1
    have h2 := (hbounds j).2
    omega
  intro line hline
  by_cases hcols : tableCols headers rows = 0
  · simp only [render_table] at hline
    rw [if_pos hcols] at hline
    simp at hline
  · have hWlen : (tableFinalState headers rows maxWidth).1.length =
        tableCols headers rows := by
      rw [hlen]
      unfold naturalWidths
      simp
    have hWne : (tableFinalState headers rows maxWidth).1 ≠ [] := by
      intro h0
      rw [h0] at hWlen
      exact hcols (by simpa using hWlen.symm)
    have hWsum : (tableFinalState headers rows maxWidth).1.sum +
        2 * tableCols headers rows + (tableCols headers rows + 1) =
        maxWidth := by
      have htot : tableNaturalTotal headers rows =
          (naturalWidths headers rows (tableCols headers rows)).sum +
            2 * tableCols headers rows + (tableCols headers rows + 1) := rfl
      omega
    have hborder : ∀ l m r h' : Char,
        display_width (draw_border l m r h'
          (tableFinalState headers rows maxWidth).1) = maxWidth := by
      intro l m r h'
      unfold display_width
      rw [draw_border_length l m r h' _ hWne, hWlen]
      omega
    have hrowW : ∀ cells : List (List Char),
        (∀ i, (cells.getD i []).length ≤
          (naturalWidths headers rows (tableCols headers rows)).getD i 0) →
        ∀ hdr : Bool,
        ∀ phys ∈ wrap_row (tableFinalState headers rows maxWidth).1 cells,
        display_width (render_row_styled phys
          (tableFinalState headers rows maxWidth).1 hdr) = maxWidth := by
      intro cells hcell hdr phys hphys
      have hzero : ∀ i,
          (tableFinalState headers rows maxWidth).1.getD i 0 = 0 →
          cells.getD i [] = [] := by
        intro i h0
        have h1 := (hbounds i).1
        have h2 := hcell i
        rw [h0] at h1
        have hn : (naturalWidths headers rows
            (tableCols headers rows)).getD i 0 = 0 := by omega
        rw [hn] at h2
        exact List.eq_nil_of_length_eq_zero (by omega)
      have hps := wrap_row_spec _ cells hzero phys hphys
      unfold display_width
      rw [render_row_length hdr phys _ hps.1 hps.2, hWlen]
      omega
    simp only [render_table] at hline
    rw [if_neg hcols] at hline
    rcases List.mem_append.mp hline with hline | hline
    · have hline' := List.dropLast_subset _ hline
      rcases List.mem_cons.mp hline' with htop | hline''
      · rw [htop]
        exact le_of_eq (hborder _ _ _ _)
      · rcases List.mem_append.mp hline'' with hhdr | hrest
        · rcases List.mem_map.mp hhdr with ⟨phys, hphys, hl⟩
          rw [← hl]
          exact le_of_eq (hrowW (normHeaders headers (tableCols headers rows))
            (fun i => natural_ge_header headers rows _ i) true phys hphys)
        · rcases List.mem_cons.mp hrest with hsep | hbody
          · rw [hsep]
            exact le_of_eq (hborder _ _ _ _)
          · rcases List.mem_flatMap.mp hbody with ⟨row, hrowmem, hm⟩
            rcases List.mem_append.mp hm with hm | hm
            · rcases List.mem_map.mp hm with ⟨phys, hphys, hl⟩
              rw [← hl]
              exact le_of_eq (hrowW row
                (fun i => natural_ge_cell headers rows _ i row hrowmem)
                false phys hphys)
            · rw [List.mem_singleton.mp hm]
              exact le_of_eq (hborder _ _ _ _)
    · rw [List.mem_singleton.mp hline]
      exact le_of_eq (hborder _ _ _ _)

/-- C9 (witness): the sample two-column table (natural widths 6 and 1,
natural total 14) at target width 12 overflows, the shrink succeeds, and
every rendered line fits. -/
theorem table_shrink_fits_witness :
    12 < tableNaturalTotal sampleHeaders sampleRows ∧
      (tableFinalState sampleHeaders sampleRows 12).2 = 0 ∧
      ∀ line ∈ render_table sampleHeaders sampleRows 12,
        display_width line ≤ 12 :=
  ⟨by decide, by decide,
    (table_shrink_fits sampleHeaders sampleRows 12 (by decide)
      (by decide)).1⟩

theorem utf8Len_eq_one_of_valid (c : Char) (h : valid_id_char c = true) :
    utf8Len c = 1 := by
  unfold valid_id_char is_ascii_alphanumeric at h
  simp only [Bool.or_eq_true, decide_eq_true_eq] at h
  unfold utf8Len
  rcases h with (h | h) | h
  · rcases h with h | h | h <;> rw [if_pos (by omega)]
  · subst h; decide
  · subst h; decide

theorem byteLen_eq_length_of_valid (t : List Char)
    (h : t.all valid_id_char = true) : byteLen t = t.length := by
  induction t with
  | nil => rfl
  | cons c rest ih =>
    simp only [List.all_cons, Bool.and_eq_true] at h
    show utf8Len c + byteLen rest = rest.length + 1
    rw [utf8Len_eq_one_of_valid c h.1, ih h.2]
    omega

/-- C8: `sanitize_video_id` accepts, after trimming, exactly the non-empty
strings of at most 128 characters over ASCII letters, digits, `-`, `_`
(returning the trimmed string), and rejects everything else; in particular
`"../etc/passwd"` is rejected by `extract_video_id`, so pressing Enter on
the last form field with that identifier leaves the screen unchanged and
spawns no job. -/
theorem sanitize_accepts_exactly_valid_ids :
    (∀ s : List Char,
        ((sanitize_video_id s).isOk = true ↔
          (trimL s ≠ [] ∧ (trimL s).length ≤ 128 ∧
            (trimL s).all valid_id_char = true)) ∧
        ∀ t, sanitize_video_id s = .ok t → t = trimL s) ∧
      extract_video_id (strL "../etc/passwd") = none ∧
      ∀ a : AppM, a.state = AppStateM.newTranscript → a.inputFocus = 3 →
        a.urlInput.value = strL "../etc/passwd" →
        handle_new_transcript_key a .enter = some (a, none) := by
  refine ⟨fun s => ⟨?_, ?_⟩, by decide, ?_⟩
  · unfold sanitize_video_id MAX_VIDEO_ID_LEN
    split_ifs with h1 h2 h3
    · constructor
      · intro h; exact absurd h (by decide)
      · rintro ⟨hne, _, _⟩; exact absurd h1 hne
    · constructor
      · intro h; exact absurd h (by decide)
      · rintro ⟨hne, hlen, hall⟩
        rw [byteLen_eq_length_of_valid _ hall] at h2
        omega
    · constructor
      · intro _
        refine ⟨h1, ?_, h3⟩
        rw [← byteLen_eq_length_of_valid _ h3]
        omega
      · intro _; rfl
    · constructor
      · intro h; exact absurd h (by decide)
      · rintro ⟨_, _, hall⟩; exact absurd hall h3
  · intro t ht
    unfold sanitize_video_id at ht
    split_ifs at ht
    all_goals
      first
      | exact Except.noConfusion ht
      | (injection ht with h; exact h.symm)
  · intro a hstate hfocus hurl
    have henter : handle_new_transcript_key a .enter =
        some (start_processing a) := by
      unfold handle_new_transcript_key
      rw [if_neg (by decide), if_neg (by decide), if_pos rfl,
        if_neg (by omega)]
    have hv : a.urlInput.is_valid = true := by
      rw [InputField.is_valid, hurl]; decide
    have hx : extract_video_id a.urlInput.value = none := by
      rw [hurl]; decide
    rw [henter]
    unfold start_processing
    rw [if_neg (by simp [hv])]
    simp only [hx]

/-- C8 (witness): the path-traversal scenario at the concrete form state. -/
theorem sanitize_accepts_exactly_valid_ids_witness :
    traversalApp.state = AppStateM.newTranscript ∧
      traversalApp.inputFocus = 3 ∧
      traversalApp.urlInput.value = strL "../etc/passwd" ∧
      handle_new_transcript_key traversalApp .enter =
        some (traversalApp, none) :=
  ⟨rfl, rfl, rfl,
    sanitize_accepts_exactly_valid_ids.2.2 traversalApp rfl rfl rfl⟩

/-- C7 (counterexample): with the non-empty identifier `"!!!"` the field
passes the non-empty validation, yet pressing Enter on the last field does
not transition to `Processing` — the screen stays on the form and no job is
spawned, refuting the claimed "iff non-empty". -/
theorem nonempty_id_enter_can_still_be_noop :
    exclApp.urlInput.is_valid = true ∧
      exclApp.inputFocus = 3 ∧
      handle_new_transcript_key exclApp .enter = some (exclApp, none) ∧
      exclApp.state = AppStateM.newTranscript := by
  refine ⟨by decide, by decide, ?_, by decide⟩
  decide

/-- C7 (amended): pressing Enter with focus on the last field runs
`start_processing`; the screen becomes `Processing` iff the identifier
field is non-empty AND `extract_video_id` successfully sanitises an
identifier from it; otherwise (the empty field in particular) the event is
a complete no-op: the whole application state is unchanged and no job is
spawned. -/
theorem enter_on_last_field_transitions_iff (a : AppM)
    (hstate : a.state = AppStateM.newTranscript) (hfocus : a.inputFocus = 3) :
    handle_new_transcript_key a .enter = some (start_processing a) ∧
      ((start_processing a).1.state.isProcessing = true ↔
        (a.urlInput.is_valid = true ∧
          (extract_video_id a.urlInput.value).isSome = true)) ∧
      ((start_processing a).1.state.isProcessing = false →
        start_processing a = (a, none)) := by
  refine ⟨?_, ?_, ?_⟩
  · unfold handle_new_transcript_key
    rw [if_neg (by decide), if_neg (by decide), if_pos rfl,
      if_neg (by omega)]
  · by_cases hv : a.urlInput.is_valid = true
    · unfold start_processing
      rw [if_neg (by simp [hv])]
      cases hx : extract_video_id a.urlInput.value with
      | none => simp [hx, hstate, AppStateM.isProcessing, hv]
      | some v => simp [hx, hstate, AppStateM.isProcessing, hv]
    · unfold start_processing
      rw [if_pos (by simp [hv])]
      simp [hstate, AppStateM.isProcessing, hv]
  · by_cases hv : a.urlInput.is_valid = true
    · unfold start_processing
      rw [if_neg (by simp [hv])]
      cases hx : extract_video_id a.urlInput.value with
      | none => simp [hx]
      | some v => simp [hx, AppStateM.isProcessing]
    · unfold start_processing
      rw [if_pos (by simp [hv])]
      simp

/-- C7 (witness): the valid identifier `"abc_DEF-123"` at focus 3 does
transition to `Processing`. -/
theorem enter_on_last_field_transitions_iff_witness :
    validApp.state = AppStateM.newTranscript ∧ validApp.inputFocus = 3 ∧
      (start_processing validApp).1.state.isProcessing = true :=
  ⟨rfl, rfl,
    (enter_on_last_field_transitions_iff validApp rfl rfl).2.1.mpr
      ⟨by decide, by decide⟩⟩

/-- C10: inserting the two-byte character `é` into a fresh field advances
the byte cursor by only 1, leaving it on a non-boundary (`charIdxGo … =
none`), so the next insertion panics (`String::insert` asserts the index is
a character boundary) — the claimed cursor/boundary invariant does not
survive multi-byte input. -/
theorem multibyte_insert_breaks_cursor_invariant :
    (urlField.handle_key (.char 'é')).map
        (fun f => (f.cursor, byteLen f.value, charIdxGo f.value f.cursor)) =
      some (1, 2, none) ∧
      ((urlField.handle_key (.char 'é')).bind
        (fun f => f.handle_key (.char 'a'))) = none := by
  refine ⟨?_, ?_⟩ <;> decide

theorem adjust_offset_items (fl : FileList) :
    (FileList.adjust_offset fl).items = fl.items ∧
      (FileList.adjust_offset fl).viewportSize = fl.viewportSize := by
  unfold FileList.adjust_offset
  split_ifs <;> simp

theorem adjust_offset_invariant (fl : FileList) (h : fl.items ≠ []) :
    ∃ i, (FileList.adjust_offset fl).state.selected = some i ∧
      (FileList.adjust_offset fl).state.offset ≤ i ∧
      i < (FileList.adjust_offset fl).state.offset + max fl.viewportSize 1 ∧
      (FileList.adjust_offset fl).state.offset + max fl.viewportSize 1 ≤
        max fl.items.length (max fl.viewportSize 1) := by
  have hne : fl.items.isEmpty = false := by
    simpa [List.isEmpty_iff] using h
  have hlen : 1 ≤ fl.items.length := by
    cases hl : fl.items with
    | nil => exact absurd hl h
    | cons a l => simp
  unfold FileList.adjust_offset
  rw [if_neg (by simp [hne])]
  rcases hs : fl.state.selected with _ | i <;>
    simp only [hs] <;>
    refine ⟨_, rfl, ?_⟩ <;>
    split_ifs <;>
    omega

theorem invariant_of_adjust (fl : FileList)
    (h : (FileList.adjust_offset fl).items ≠ []) :
    ∃ i, (FileList.adjust_offset fl).state.selected = some i ∧
      (FileList.adjust_offset fl).state.offset ≤ i ∧
      i < (FileList.adjust_offset fl).state.offset +
        max (FileList.adjust_offset fl).viewportSize 1 ∧
      (FileList.adjust_offset fl).state.offset +
        max (FileList.adjust_offset fl).viewportSize 1 ≤
        max (FileList.adjust_offset fl).items.length
          (max (FileList.adjust_offset fl).viewportSize 1) := by
  have h1 := adjust_offset_items fl
  rw [h1.1] at h
  have h2 := adjust_offset_invariant fl h
  rw [← h1.1] at h2
  rw [← h1.2] at h2
  exact h2

/-- C5 (counterexample): `viewport_size` is 0 until the list is first
rendered, and the literal invariant `offset ≤ selected < offset +
viewport_size` fails in that state: after `next` on a freshly created
one-item list the selection is `some 0` but `selected < offset +
viewport_size` would require `0 < 0`. -/
theorem scroll_invariant_fails_at_zero_viewport :
    (FileList.next (FileList.new [sampleEntry])).items ≠ [] ∧
      (FileList.next (FileList.new [sampleEntry])).state.selected = some 0 ∧
      ¬((FileList.next (FileList.new [sampleEntry])).state.offset ≤ 0 ∧
        0 < (FileList.next (FileList.new [sampleEntry])).state.offset +
            (FileList.next (FileList.new [sampleEntry])).viewportSize) := by
  refine ⟨by decide, by decide, ?_⟩
  decide

/-- C5 (amended): after any scroll-window operation (next, previous, page
up/down, home, end, item replacement, viewport resize), if the collection is
non-empty then the selection is `some i` with `offset ≤ i < offset + v` and
`offset + v ≤ max len v`, where `v = max viewport_size 1` is the effective
viewport the code always works with (`viewport_size` itself is 0 until the
first render, which is the only correction the counterexample forces). -/
theorem scroll_window_invariant (op : ScrollOp) (fl : FileList)
    (h : (applyScrollOp op fl).items ≠ []) :
    ∃ i, (applyScrollOp op fl).state.selected = some i ∧
      (applyScrollOp op fl).state.offset ≤ i ∧
      i < (applyScrollOp op fl).state.offset +
        max (applyScrollOp op fl).viewportSize 1 ∧
      (applyScrollOp op fl).state.offset +
        max (applyScrollOp op fl).viewportSize 1 ≤
        max (applyScrollOp op fl).items.length
          (max (applyScrollOp op fl).viewportSize 1) := by
  cases op with
  | next =>
    by_cases hemp : fl.items.isEmpty
    · exfalso
      simp only [applyScrollOp, FileList.next, if_pos hemp] at h
      exact h (by simpa [List.isEmpty_iff] using hemp)
    · simp only [applyScrollOp, FileList.next, if_neg hemp] at h ⊢
      exact invariant_of_adjust _ h
  | previous =>
    by_cases hemp : fl.items.isEmpty
    · exfalso
      simp only [applyScrollOp, FileList.previous, if_pos hemp] at h
      exact h (by simpa [List.isEmpty_iff] using hemp)
    · simp only [applyScrollOp, FileList.previous, if_neg hemp] at h ⊢
      exact invariant_of_adjust _ h
  | pageUp =>
    by_cases hemp : fl.items.isEmpty
    · exfalso
      simp only [applyScrollOp, FileList.page_up, if_pos hemp] at h
      exact h (by simpa [List.isEmpty_iff] using hemp)
    · simp only [applyScrollOp, FileList.page_up, if_neg hemp] at h ⊢
      exact invariant_of_adjust _ h
  | pageDown =>
    by_cases hemp : fl.items.isEmpty
    · exfalso
      simp only [applyScrollOp, FileList.page_down, if_pos hemp] at h
      exact h (by simpa [List.isEmpty_iff] using hemp)
    · simp only [applyScrollOp, FileList.page_down, if_neg hemp] at h ⊢
      exact invariant_of_adjust _ h
  | toHome =>
    by_cases hemp : fl.items.isEmpty
    · exfalso
      simp only [applyScrollOp, FileList.go_home, if_pos hemp] at h
      exact h (by simpa [List.isEmpty_iff] using hemp)
    · simp only [applyScrollOp, FileList.go_home, if_neg hemp] at h ⊢
      exact invariant_of_adjust _ h
  | toEnd =>
    by_cases hemp : fl.items.isEmpty
    · exfalso
      simp only [applyScrollOp, FileList.go_end, if_pos hemp] at h
      exact h (by simpa [List.isEmpty_iff] using hemp)
    · simp only [applyScrollOp, FileList.go_end, if_neg hemp] at h ⊢
      exact invariant_of_adjust _ h
  | replace newItems =>
    simp only [applyScrollOp, FileList.update_items] at h ⊢
    exact invariant_of_adjust _ h
  | resize height =>
    simp only [applyScrollOp, FileList.resize_viewport] at h ⊢
    exact invariant_of_adjust _ h

/-- C5 (witness): the invariant at a concrete operation, replacing an empty
collection by a one-entry collection. -/
theorem scroll_window_invariant_witness :
    (applyScrollOp (.replace [sampleEntry]) (FileList.new [])).items ≠ [] ∧
      ∃ i, (applyScrollOp (.replace [sampleEntry])
              (FileList.new [])).state.selected = some i ∧
        (applyScrollOp (.replace [sampleEntry])
              (FileList.new [])).state.offset ≤ i ∧
        i < (applyScrollOp (.replace [sampleEntry])
              (FileList.new [])).state.offset +
            max (applyScrollOp (.replace [sampleEntry])
              (FileList.new [])).viewportSize 1 ∧
        (applyScrollOp (.replace [sampleEntry])
              (FileList.new [])).state.offset +
            max (applyScrollOp (.replace [sampleEntry])
              (FileList.new [])).viewportSize 1 ≤
          max (applyScrollOp (.replace [sampleEntry])
              (FileList.new [])).items.length
            (max (applyScrollOp (.replace [sampleEntry])
              (FileList.new [])).viewportSize 1) :=
  ⟨by decide,
    scroll_window_invariant (.replace [sampleEntry]) (FileList.new [])
      (by decide)⟩

/-- C6: `update_items` resets every per-index mark to `false` and keeps the
previous numeric selection index clamped into the new bounds (`none` exactly
when the new collection is empty, and, when a previous selection existed,
the new selection is it clamped to the last index); concretely, a 10-item
list with selection 9 replaced by a 3-item list selects index 2, and
replacement by an empty list clears the selection. -/
theorem update_items_resets_marks_and_clamps (fl : FileList)
    (newItems : List FileEntryM) :
    ((fl.update_items newItems).items = newItems ∧
      (fl.update_items newItems).selectedItems =
        List.replicate newItems.length false ∧
      (fl.update_items newItems).state.selected =
        (if newItems = [] then none
         else some
           (match fl.state.selected with
            | some s => min s (newItems.length - 1)
            | none => 0))) ∧
      (tenItemList.update_items (List.replicate 3 sampleEntry)).state.selected
          = some 2 ∧
      (tenItemList.update_items []).state.selected = none ∧
      (tenItemList.update_items (List.replicate 3 sampleEntry)).selectedItems
          = List.replicate 3 false := by
  refine ⟨?_, by decide, by decide, by decide⟩
  by_cases hne : newItems = []
  · subst hne
    simp [FileList.update_items, FileList.adjust_offset]
  · have hemp : newItems.isEmpty = false := by
      simpa [List.isEmpty_iff] using hne
    have hlen : 1 ≤ newItems.length := by
      cases hl : newItems with
      | nil => exact absurd hl hne
      | cons a l => simp
    rcases hs : fl.state.selected with _ | s
    · simp only [FileList.update_items, FileList.adjust_offset, hs, hemp,
        Bool.false_eq_true, if_false, if_neg hne]
      constructor
      · simp
      constructor
      · simp
      · simp
    · by_cases hcl : newItems.length ≤ s
      · simp only [FileList.update_items, FileList.adjust_offset, hs, hemp,
          Bool.false_eq_true, if_false, if_pos hcl, if_neg hne]
        refine ⟨by simp, by simp, ?_⟩
        simp
        omega
      · simp only [FileList.update_items, FileList.adjust_offset, hs, hemp,
          Bool.false_eq_true, if_false, if_neg hcl, if_neg hne]
        refine ⟨by simp, by simp, ?_⟩
        simp [hs]

theorem handleTickMsg_state (st : AppStateM × ProgressBar) (m : List Char) :
    (handleTickMsg st m).1 = st.1 ∨
      ((handleTickMsg st m).1 = AppStateM.home ∧ m = strL "COMPLETE") := by
  unfold handleTickMsg
  split_ifs with h1 h2 h3 h4
  · cases parseDec (trim_start_matches (strL "PROGRESS:") m) <;> simp
  · simp
  · simp
  · exact Or.inr ⟨rfl, h4⟩
  · simp

theorem handleTickMsg_complete (st : AppStateM × ProgressBar) :
    handleTickMsg st (strL "COMPLETE") = (AppStateM.home, st.2.reset) := by
  unfold handleTickMsg
  rw [if_neg (by decide), if_neg (by decide), if_neg (by decide),
    if_pos (by decide)]

theorem handle_tick_last_complete (st : AppStateM × ProgressBar)
    (msgs : List (List Char)) :
    (handle_tick st (msgs ++ [strL "COMPLETE"])).1 = AppStateM.home := by
  unfold handle_tick
  rw [List.foldl_append]
  simp [List.foldl, handleTickMsg_complete]

/-- C1 (counterexample): on a fetch failure the job does not emit any
distinct `Failed(message)` terminal message.  Concretely, in the failure
trace of a job whose fetch stage fails with "network error", the only
message whose draining moves the UI off the `Processing` screen is the
literal success terminator `"COMPLETE"`, which is also the trace's last
message, and `"COMPLETE"` carries no error payload: the trace is
indistinguishable, as far as screen transitions go, from a successful run's
trace. -/
theorem failure_trace_has_no_failed_terminal :
    c1FailTrace.getLast? = some (strL "COMPLETE") ∧
      c1FailTrace.all (fun m =>
        !terminalFrom (AppStateM.processing (strL "abc") 0 (strL "s") [])
            ProgressBar.new m ||
          (m = strL "COMPLETE" : Bool)) = true ∧
      (handle_tick (AppStateM.processing (strL "abc") 0 (strL "s") [],
          ProgressBar.new) c1FailTrace).1 = AppStateM.home := by
  refine ⟨by decide, by decide, ?_⟩
  decide

/-- C1 (amended): if any pipeline stage that is reached fails, the job
reports the failure through an error log line and an error status line and
then emits the terminal message `"COMPLETE"` (not a distinct
`Failed(message)`); nothing is emitted after it, so no later stage runs, and
draining the trace moves the UI to `Home` from any screen.  Moreover the
only message that ever changes the screen during a drain is `"COMPLETE"`. -/
theorem pipeline_failure_stops_and_completes
    (fetchRes saveTRes : Except (List Char) Unit) (generateReport : Bool)
    (genRes saveRRes : Except (List Char) Unit)
    (hfail : pipelineFailed fetchRes saveTRes generateReport genRes saveRRes =
      true) :
    (∃ n e, n < 4 ∧
        start_real_processing fetchRes saveTRes generateReport genRes
            saveRRes =
          stagePrefix n ++ [errLogMsg n e, errStatusMsg n, strL "COMPLETE"]) ∧
      (start_real_processing fetchRes saveTRes generateReport genRes
            saveRRes).getLast? =
        some (strL "COMPLETE") ∧
      (∀ st : AppStateM × ProgressBar,
        (handle_tick st
            (start_real_processing fetchRes saveTRes generateReport genRes
              saveRRes)).1 =
          AppStateM.home) ∧
      (∀ (st : AppStateM × ProgressBar) (m : List Char),
        (handleTickMsg st m).1 = st.1 ∨
          ((handleTickMsg st m).1 = AppStateM.home ∧ m = strL "COMPLETE")) := by
  have key : ∃ n e, n < 4 ∧
      start_real_processing fetchRes saveTRes generateReport genRes saveRRes =
        stagePrefix n ++ [errLogMsg n e, errStatusMsg n, strL "COMPLETE"] := by
    rcases fetchRes with e | ⟨⟩
    · exact ⟨0, e, by norm_num,
        by simp [start_real_processing, stagePrefix, fetchPrefix, errLogMsg,
          errStatusMsg]⟩
    · rcases saveTRes with e | ⟨⟩
      · exact ⟨1, e, by norm_num,
          by simp [start_real_processing, stagePrefix, fetchPrefix, errLogMsg,
            errStatusMsg]⟩
      · rcases hg : generateReport with _ | _
        · exact absurd hfail (by simp [pipelineFailed, hg])
        · rcases genRes with e | ⟨⟩
          · exact ⟨2, e, by norm_num,
              by simp [start_real_processing, stagePrefix, fetchPrefix,
                errLogMsg, errStatusMsg, hg]⟩
          · rcases saveRRes with e | ⟨⟩
            · exact ⟨3, e, by norm_num,
                by simp [start_real_processing, stagePrefix, fetchPrefix,
                  errLogMsg, errStatusMsg, hg]⟩
            · exact absurd hfail (by simp [pipelineFailed, hg])
  obtain ⟨n, e, hn, htr⟩ := key
  refine ⟨⟨n, e, hn, htr⟩, ?_, ?_, fun st m => handleTickMsg_state st m⟩
  · rw [htr]
    rw [show stagePrefix n ++ [errLogMsg n e, errStatusMsg n, strL "COMPLETE"] =
      (stagePrefix n ++ [errLogMsg n e, errStatusMsg n]) ++ [strL "COMPLETE"]
      from by simp]
    exact List.getLast?_concat _
  · intro st
    rw [htr]
    rw [show stagePrefix n ++ [errLogMsg n e, errStatusMsg n, strL "COMPLETE"] =
      (stagePrefix n ++ [errLogMsg n e, errStatusMsg n]) ++ [strL "COMPLETE"]
      from by simp]
    exact handle_tick_last_complete st _

/-- C1 (witness): the amended theorem applied to a job whose
transcript-save stage fails. -/
theorem pipeline_failure_stops_and_completes_witness :
    pipelineFailed (.ok ()) (.error (strL "disk full")) true (.ok ())
        (.ok ()) = true ∧
      (start_real_processing (.ok ()) (.error (strL "disk full")) true
            (.ok ()) (.ok ())).getLast? =
        some (strL "COMPLETE") :=
  ⟨by decide,
    (pipeline_failure_stops_and_completes (.ok ())
        (.error (strL "disk full")) true (.ok ()) (.ok ())
        (by decide)).2.1⟩

/-- C3 (counterexample): after cancelling with Esc the UI sits on the form
screen, but the abandoned job's terminal `"COMPLETE"` message is not
silently ignored there: draining it switches the screen again, to `Home`. -/
theorem cancelled_job_terminal_message_not_ignored :
    (handle_processing_key
          (AppStateM.processing (strL "abc") 0 (strL "s") [],
            ProgressBar.new) .esc).1 =
        AppStateM.newTranscript ∧
      (handle_tick (AppStateM.newTranscript, ProgressBar.new)
            [strL "COMPLETE"]).1 =
        AppStateM.home ∧
      AppStateM.home ≠ AppStateM.newTranscript := by
  refine ⟨by decide, ?_, by decide⟩
  decide

/-- C3 (amended): pressing Esc in `Processing` returns the UI to the form
screen immediately (resetting the progress bar and without signalling the
background job), but when the abandoned job's terminal `"COMPLETE"` message
later arrives, draining it is not ignored: it switches the screen to `Home`
no matter which screen is current. -/
theorem esc_returns_to_form_but_complete_still_fires :
    (∀ st : AppStateM × ProgressBar,
        handle_processing_key st .esc =
          (AppStateM.newTranscript, st.2.reset)) ∧
      (∀ (st : AppStateM × ProgressBar) (pre : List (List Char)),
        (handle_tick st (pre ++ [strL "COMPLETE"])).1 = AppStateM.home) := by
  constructor
  · intro st
    simp [handle_processing_key]
  · intro st pre
    exact handle_tick_last_complete st pre

/-- C4: the progress fraction is clamped to `[0,1]` on ingestion, whatever
the sender sent; in particular receiving `PROGRESS:-0.5` stores `0` and
receiving `PROGRESS:1.7` stores `1`, from any prior state. -/
theorem progress_clamped_on_ingestion :
    (∀ (b : ProgressBar) (p : ℚ),
        0 ≤ (b.set_progress p).progress ∧ (b.set_progress p).progress ≤ 1 ∧
          (p < 0 → (b.set_progress p).progress = 0) ∧
          (1 < p → (b.set_progress p).progress = 1) ∧
          (0 ≤ p → p ≤ 1 → (b.set_progress p).progress = p)) ∧
      (∀ st : AppStateM × ProgressBar,
        (handle_tick st [strL "PROGRESS:-0.5"]).2.progress = 0 ∧
          (handle_tick st [strL "PROGRESS:1.7"]).2.progress = 1) := by
  constructor
  · intro b p
    simp only [ProgressBar.set_progress]
    split_ifs with h1 h2
    · refine ⟨le_refl _, by norm_num, fun _ => rfl, fun h => ?_, fun h _ => ?_⟩
      · linarith
      · linarith
    · refine ⟨by norm_num, le_refl _, fun h => ?_, fun _ => rfl, fun _ h => ?_⟩
      · linarith
      · linarith
    · refine ⟨by linarith, by linarith, fun h => ?_, fun h => ?_, fun _ _ => rfl⟩
      · exact absurd h h1
      · exact absurd h h2
  · intro st
    constructor
    · show (handleTickMsg st (strL "PROGRESS:-0.5")).2.progress = 0
      unfold handleTickMsg
      rw [if_pos (by decide)]
      rw [show parseDec (trim_start_matches (strL "PROGRESS:")
          (strL "PROGRESS:-0.5")) = some (-(mkRat 1 2)) from by decide]
      simp only [ProgressBar.set_progress]
      rw [if_pos (by decide)]
    · show (handleTickMsg st (strL "PROGRESS:1.7")).2.progress = 1
      unfold handleTickMsg
      rw [if_pos (by decide)]
      rw [show parseDec (trim_start_matches (strL "PROGRESS:")
          (strL "PROGRESS:1.7")) = some (mkRat 17 10) from by decide]
      simp only [ProgressBar.set_progress]
      rw [if_neg (by decide), if_pos (by decide)]

end Vidio
